import Mathlib

/-!
Verification of the task management engine of `cli_task_manager`
(`src/task_manager.rs`), as a shallow embedding.

Modelling choices, faithful to the source:
* `HashMap<u32, Task>` is modelled as an association list `List (Nat × Task)`;
  `insert` replaces the value when the key is present and adds the pair
  otherwise, `remove` drops the entry, `get`/`get_mut` is `lookupA`.
  Iteration order of a hash map is unspecified, so no property proved below
  depends on the order of the list beyond multiset content.
* `u32` is modelled as `Nat`: the only arithmetic the engine performs on ids
  is `next_id += 1` and `max + 1`, never subtraction below zero or wrapping.
* `Local::now()` is an effect; the timestamp string is passed to `add_task`
  as the explicit argument `now`.
* Disk I/O is an effect; whether a `save_tasks` write succeeds is the
  explicit argument `writeOk`, and the content a successful write puts on
  disk is returned in the `wrote` field of an operation's outcome
  (`none` when no write happened).  The state of the file read by
  `TaskManager::new` is a `FileState`: absent, present-but-unparsable, or a
  well-formed task mapping.
-/

namespace CliTaskManager

/-- `enum TaskStatus { Todo, InProgress, Done }` -/
inductive TaskStatus
  | Todo
  | InProgress
  | Done
deriving DecidableEq, Repr

/-- `enum TaskPriority { Low, Medium, High }` -/
inductive TaskPriority
  | Low
  | Medium
  | High
deriving DecidableEq, Repr

/-- `*self as u8`: the discriminant of `TaskPriority` in declaration order. -/
def TaskPriority.toU8 : TaskPriority → Nat
  | .Low => 0
  | .Medium => 1
  | .High => 2

/-- `impl Ord for TaskPriority`: `(*self as u8).cmp(&(*other as u8))`,
rendered as the Boolean relation `a ≤ b` used by the sort. -/
def prioLe (a b : TaskPriority) : Bool := decide (a.toU8 ≤ b.toU8)

/-- `struct Task` -/
structure Task where
  id : Nat
  title : String
  description : String
  status : TaskStatus
  created_at : String
  priority : TaskPriority
deriving DecidableEq, Repr

/-- `struct TaskManager { tasks: HashMap<u32, Task>, next_id: u32, file_path: String }` -/
structure TaskManager where
  tasks : List (Nat × Task)
  next_id : Nat
  file_path : String
deriving DecidableEq, Repr

/-- `HashMap::get`: first binding of the key, if any. -/
def lookupA : List (Nat × Task) → Nat → Option Task
  | [], _ => none
  | p :: rest, k => if p.1 = k then some p.2 else lookupA rest k

/-- `HashMap::insert`: replace the binding when the key is present,
otherwise add the pair. -/
def insertA (l : List (Nat × Task)) (k : Nat) (v : Task) : List (Nat × Task) :=
  if (lookupA l k).isSome then
    l.map (fun p => if p.1 = k then (k, v) else p)
  else
    l ++ [(k, v)]

/-- `HashMap::remove`: drop the binding for the key. -/
def removeA (l : List (Nat × Task)) (k : Nat) : List (Nat × Task) :=
  l.filter (fun p => p.1 != k)

/-- `task.status = status` through `get_mut`: update the status of the
binding for the key, leave everything else alone. -/
def setStatusA (l : List (Nat × Task)) (k : Nat) (s : TaskStatus) : List (Nat × Task) :=
  l.map (fun p => if p.1 = k then (p.1, { p.2 with status := s }) else p)

/-- `self.tasks.keys().max()` -/
def maxKey : List (Nat × Task) → Option Nat
  | [] => none
  | p :: rest =>
    match maxKey rest with
    | none => some p.1
    | some m => some (Nat.max p.1 m)

/-- Error taxonomy of the engine: serde parse failure at load
(Corrupt-State) and file-system write failure at save (Persistence). -/
inductive TMError
  | corruptState
  | persistence
deriving DecidableEq, Repr

/-- State of the file at `file_path` when `TaskManager::new` runs. -/
inductive FileState
  | absent
  | corrupt
  | wellFormed (m : List (Nat × Task))
deriving DecidableEq, Repr

/-- `TaskManager::new`: fresh manager with `next_id = 1`; if the file
exists, `load_tasks` replaces `tasks` by the parsed mapping and recomputes
`next_id = keys().max().map_or(1, |max| max + 1)`; a parse failure
propagates as an error. -/
def TaskManager.new (file_path : String) (fs : FileState) : Except TMError TaskManager :=
  match fs with
  | .absent => .ok { tasks := [], next_id := 1, file_path := file_path }
  | .corrupt => .error TMError.corruptState
  | .wellFormed m =>
      .ok { tasks := m,
            next_id := match maxKey m with
              | none => 1
              | some mx => mx + 1,
            file_path := file_path }

/-- `save_tasks`: serializes `self.tasks` and writes the file, failing when
the destination is unwritable.  The successful value is the content put on
disk. -/
def TaskManager.save_tasks (tm : TaskManager) (writeOk : Bool) :
    Except TMError (List (Nat × Task)) :=
  if writeOk then .ok tm.tasks else .error TMError.persistence

/-- Outcome of one mutating operation: the returned value or error, the
manager afterwards, and the content written to disk (`none` when no write
succeeded). -/
structure OpOutcome (α : Type) where
  res : Except TMError α
  tm : TaskManager
  wrote : Option (List (Nat × Task))
deriving Repr

/-- The `Task` literal built inside `add_task`. -/
def builtTask (tm : TaskManager) (title description : String)
    (priority : TaskPriority) (now : String) : Task :=
  { id := tm.next_id, title := title, description := description,
    status := TaskStatus.Todo, created_at := now, priority := priority }

/-- `add_task`: build the task with `id = next_id`, insert it, increment
`next_id`, save, and return `next_id - 1`.  The `?` on `save_tasks`
propagates the write error after the insertion and increment happened. -/
def TaskManager.add_task (tm : TaskManager) (title description : String)
    (priority : TaskPriority) (now : String) (writeOk : Bool) : OpOutcome Nat :=
  let task := builtTask tm title description priority now
  let tm2 : TaskManager :=
    { tm with tasks := insertA tm.tasks task.id task, next_id := tm.next_id + 1 }
  match tm2.save_tasks writeOk with
  | .ok w => { res := .ok (tm2.next_id - 1), tm := tm2, wrote := some w }
  | .error e => { res := .error e, tm := tm2, wrote := none }

/-- `delete_task`: if `remove` found the id, save and return `true`;
otherwise return `false` without saving. -/
def TaskManager.delete_task (tm : TaskManager) (id : Nat) (writeOk : Bool) :
    OpOutcome Bool :=
  if (lookupA tm.tasks id).isSome then
    let tm2 : TaskManager := { tm with tasks := removeA tm.tasks id }
    match tm2.save_tasks writeOk with
    | .ok w => { res := .ok true, tm := tm2, wrote := some w }
    | .error e => { res := .error e, tm := tm2, wrote := none }
  else
    { res := .ok false, tm := tm, wrote := none }

/-- `update_status`: if `get_mut` found the id, set its status, save and
return `true`; otherwise return `false` without saving. -/
def TaskManager.update_status (tm : TaskManager) (id : Nat) (status : TaskStatus)
    (writeOk : Bool) : OpOutcome Bool :=
  if (lookupA tm.tasks id).isSome then
    let tm2 : TaskManager := { tm with tasks := setStatusA tm.tasks id status }
    match tm2.save_tasks writeOk with
    | .ok w => { res := .ok true, tm := tm2, wrote := some w }
    | .error e => { res := .error e, tm := tm2, wrote := none }
  else
    { res := .ok false, tm := tm, wrote := none }

/-- `list_tasks_sorted_by_priority`: collect the values and sort them by
`a.priority.cmp(&b.priority)` (Rust's `sort_by` is a stable merge sort). -/
def TaskManager.list_tasks_sorted_by_priority (tm : TaskManager) : List Task :=
  (tm.tasks.map Prod.snd).mergeSort (fun a b => prioLe a.priority b.priority)

/-- One mutating call of the engine's public surface, with its effect
arguments (timestamp, write success). -/
inductive Op
  | create (title description : String) (priority : TaskPriority) (now : String) (writeOk : Bool)
  | delete (id : Nat) (writeOk : Bool)
  | update (id : Nat) (status : TaskStatus) (writeOk : Bool)

/-- The manager after one call. -/
def applyOp (tm : TaskManager) : Op → TaskManager
  | .create t d p n w => (tm.add_task t d p n w).tm
  | .delete i w => (tm.delete_task i w).tm
  | .update i s w => (tm.update_status i s w).tm

/-- The manager after a sequence of calls. -/
def runOps (tm : TaskManager) (ops : List Op) : TaskManager :=
  ops.foldl applyOp tm

/-- The ids returned by the successful Create calls of a sequence, in call
order. -/
def createdIds (tm : TaskManager) : List Op → List Nat
  | [] => []
  | op :: ops =>
    match op with
    | .create t d p n w =>
      match (tm.add_task t d p n w).res with
      | .ok i => i :: createdIds (tm.add_task t d p n w).tm ops
      | .error _ => createdIds (tm.add_task t d p n w).tm ops
    | .delete i w => createdIds (tm.delete_task i w).tm ops
    | .update i s w => createdIds (tm.update_status i s w).tm ops

/-- The store invariant of the spec's data model: keys match the `id`
field, keys are unique, and `next_id` is strictly above every key. -/
def Inv (tm : TaskManager) : Prop :=
  (∀ p ∈ tm.tasks, p.2.id = p.1) ∧
  (tm.tasks.map Prod.fst).Nodup ∧
  (∀ p ∈ tm.tasks, p.1 < tm.next_id)

/-- Stores the program can actually produce: construction on an absent
file, any engine call, and construction from a file the program itself
saved. -/
inductive Reachable : TaskManager → Prop
  | construct (p : String) :
      Reachable { tasks := [], next_id := 1, file_path := p }
  | step (tm : TaskManager) (op : Op) :
      Reachable tm → Reachable (applyOp tm op)
  | reload (tm tm2 : TaskManager) (p : String) :
      Reachable tm → TaskManager.new p (.wellFormed tm.tasks) = .ok tm2 →
      Reachable tm2

/-! ### Association-list lemmas -/

theorem lookupA_append_single (l : List (Nat × Task)) (k : Nat) (v : Task)
    (h : lookupA l k = none) : lookupA (l ++ [(k, v)]) k = some v := by
  induction l with
  | nil => simp [lookupA]
  | cons p rest ih =>
    by_cases hp : p.1 = k
    · simp [lookupA, hp] at h
    · simp only [lookupA, hp, if_false] at h
      simpa [lookupA, hp] using ih h

theorem lookupA_map_replace (l : List (Nat × Task)) (k : Nat) (v : Task)
    (h : (lookupA l k).isSome) :
    lookupA (l.map (fun p => if p.1 = k then (k, v) else p)) k = some v := by
  induction l with
  | nil => simp [lookupA] at h
  | cons p rest ih =>
    by_cases hp : p.1 = k
    · simp [lookupA, hp]
    · simp only [lookupA, hp, if_false] at h
      simpa [lookupA, hp] using ih h

theorem lookupA_insertA_self (l : List (Nat × Task)) (k : Nat) (v : Task) :
    lookupA (insertA l k v) k = some v := by
  by_cases h : (lookupA l k).isSome
  · simp only [insertA, h, if_true]
    exact lookupA_map_replace l k v h
  · have hn : lookupA l k = none := Option.not_isSome_iff_eq_none.mp h
    simp only [insertA, h, if_false]
    exact lookupA_append_single l k v hn

theorem lookupA_eq_none_of_lt (l : List (Nat × Task)) (n : Nat)
    (h : ∀ p ∈ l, p.1 < n) : lookupA l n = none := by
  induction l with
  | nil => rfl
  | cons p rest ih =>
    have hne : ¬ p.1 = n := Nat.ne_of_lt (h p (List.mem_cons_self p rest))
    simp only [lookupA, hne, if_false]
    exact ih fun q hq => h q (List.mem_cons_of_mem p hq)

theorem lookupA_setStatusA_self (l : List (Nat × Task)) (k : Nat) (s : TaskStatus) :
    lookupA (setStatusA l k s) k =
      (lookupA l k).map (fun t => { t with status := s }) := by
  induction l with
  | nil => simp [setStatusA, lookupA]
  | cons p rest ih =>
    by_cases hp : p.1 = k
    · simp [setStatusA, lookupA, hp]
    · simpa [setStatusA, lookupA, hp] using ih

theorem lookupA_setStatusA_ne (l : List (Nat × Task)) (k j : Nat) (s : TaskStatus)
    (h : j ≠ k) : lookupA (setStatusA l k s) j = lookupA l j := by
  have hkj : ¬ k = j := fun hh => h hh.symm
  induction l with
  | nil => simp [setStatusA, lookupA]
  | cons p rest ih =>
    by_cases hp : p.1 = k
    · simpa [setStatusA, lookupA, hp, hkj] using ih
    · by_cases hj : p.1 = j
      · simp [setStatusA, lookupA, hp, hj, h]
      · simpa [setStatusA, lookupA, hp, hj] using ih

theorem keys_setStatusA (l : List (Nat × Task)) (k : Nat) (s : TaskStatus) :
    (setStatusA l k s).map Prod.fst = l.map Prod.fst := by
  induction l with
  | nil => rfl
  | cons p rest ih =>
    by_cases hp : p.1 = k <;> simp [setStatusA, hp] at ih ⊢ <;> exact ih

theorem mem_setStatusA (l : List (Nat × Task)) (k : Nat) (s : TaskStatus)
    (q : Nat × Task) (h : q ∈ setStatusA l k s) :
    ∃ p ∈ l, q.1 = p.1 ∧ q.2.id = p.2.id := by
  rcases List.mem_map.mp h with ⟨p, hp, hq⟩
  refine ⟨p, hp, ?_, ?_⟩ <;> rw [← hq] <;> by_cases hk : p.1 = k <;> simp [hk]

/-! ### `maxKey` lemmas -/

theorem maxKey_eq_none (l : List (Nat × Task)) : maxKey l = none ↔ l = [] := by
  cases l with
  | nil => simp [maxKey]
  | cons p rest =>
    cases h : maxKey rest <;> simp [maxKey, h]

theorem le_maxKey (l : List (Nat × Task)) (q : Nat × Task) (h : q ∈ l) :
    ∃ m, maxKey l = some m ∧ q.1 ≤ m := by
  induction l with
  | nil => cases h
  | cons p rest ih =>
    rcases List.mem_cons.mp h with hq | hmem
    · subst hq
      cases hr : maxKey rest with
      | none => exact ⟨q.1, by simp [maxKey, hr], Nat.le_refl _⟩
      | some m =>
        refine ⟨Nat.max q.1 m, ?_, Nat.le_max_left _ _⟩
        simp [maxKey, hr]
    · rcases ih hmem with ⟨m, hm, hle⟩
      cases hr : maxKey rest with
      | none => rw [hr] at hm; cases hm
      | some m2 =>
        rw [hr] at hm
        injection hm with hme
        rw [← hme] at hle
        refine ⟨Nat.max p.1 m2, ?_, Nat.le_trans hle (Nat.le_max_right _ _)⟩
        simp [maxKey, hr]

theorem maxKey_toFold (l : List (Nat × Task)) :
    (match maxKey l with
      | none => 1
      | some m => m + 1) = (l.map Prod.fst).foldr Nat.max 0 + 1 := by
  induction l with
  | nil => rfl
  | cons p rest ih =>
    cases hr : maxKey rest with
    | none =>
      have : rest = [] := (maxKey_eq_none rest).mp hr
      subst this
      simp [maxKey]
    | some m =>
      rw [hr] at ih
      have ih2 : m + 1 = (rest.map Prod.fst).foldr Nat.max 0 + 1 := ih
      have hm : m = (rest.map Prod.fst).foldr Nat.max 0 := Nat.add_right_cancel ih2
      simp only [maxKey, hr, List.map_cons, List.foldr_cons, hm]

/-! ### Shapes of the operations -/

theorem add_task_tm_eq (tm : TaskManager) (t d : String) (p : TaskPriority)
    (n : String) (w : Bool) :
    (tm.add_task t d p n w).tm =
      { tm with tasks := insertA tm.tasks tm.next_id (builtTask tm t d p n),
                next_id := tm.next_id + 1 } := by
  cases w <;> rfl

theorem add_task_res_true (tm : TaskManager) (t d : String) (p : TaskPriority)
    (n : String) :
    (tm.add_task t d p n true).res = Except.ok tm.next_id := rfl

theorem add_task_res_false (tm : TaskManager) (t d : String) (p : TaskPriority)
    (n : String) :
    (tm.add_task t d p n false).res = Except.error TMError.persistence := rfl

theorem add_task_wrote_false (tm : TaskManager) (t d : String) (p : TaskPriority)
    (n : String) :
    (tm.add_task t d p n false).wrote = none := rfl

theorem delete_task_tm_eq (tm : TaskManager) (i : Nat) (w : Bool) :
    (tm.delete_task i w).tm =
      if (lookupA tm.tasks i).isSome then { tm with tasks := removeA tm.tasks i }
      else tm := by
  by_cases h : (lookupA tm.tasks i).isSome <;> cases w <;>
    simp [TaskManager.delete_task, TaskManager.save_tasks, h]

theorem update_status_tm_eq (tm : TaskManager) (i : Nat) (s : TaskStatus) (w : Bool) :
    (tm.update_status i s w).tm =
      if (lookupA tm.tasks i).isSome then { tm with tasks := setStatusA tm.tasks i s }
      else tm := by
  by_cases h : (lookupA tm.tasks i).isSome <;> cases w <;>
    simp [TaskManager.update_status, TaskManager.save_tasks, h]

theorem next_id_le_applyOp (tm : TaskManager) (op : Op) :
    tm.next_id ≤ (applyOp tm op).next_id := by
  cases op with
  | create t d p n w =>
    rw [applyOp, add_task_tm_eq]
    exact Nat.le_succ _
  | delete i w =>
    rw [applyOp, delete_task_tm_eq]
    by_cases h : (lookupA tm.tasks i).isSome <;> simp [h]
  | update i s w =>
    rw [applyOp, update_status_tm_eq]
    by_cases h : (lookupA tm.tasks i).isSome <;> simp [h]

theorem createdIds_cons_create_true (tm : TaskManager) (t d : String)
    (p : TaskPriority) (n : String) (ops : List Op) :
    createdIds tm (Op.create t d p n true :: ops) =
      tm.next_id :: createdIds (tm.add_task t d p n true).tm ops := rfl

theorem createdIds_cons_create_false (tm : TaskManager) (t d : String)
    (p : TaskPriority) (n : String) (ops : List Op) :
    createdIds tm (Op.create t d p n false :: ops) =
      createdIds (tm.add_task t d p n false).tm ops := rfl

theorem createdIds_cons_delete (tm : TaskManager) (i : Nat) (w : Bool) (ops : List Op) :
    createdIds tm (Op.delete i w :: ops) =
      createdIds (tm.delete_task i w).tm ops := rfl

theorem createdIds_cons_update (tm : TaskManager) (i : Nat) (s : TaskStatus)
    (w : Bool) (ops : List Op) :
    createdIds tm (Op.update i s w :: ops) =
      createdIds (tm.update_status i s w).tm ops := rfl

theorem le_of_mem_createdIds (ops : List Op) :
    ∀ (tm : TaskManager), ∀ i ∈ createdIds tm ops, tm.next_id ≤ i := by
  induction ops with
  | nil => intro tm i h; simp [createdIds] at h
  | cons op rest ih =>
    intro tm i h
    cases op with
    | create t d p n w =>
      cases w with
      | false =>
        rw [createdIds_cons_create_false] at h
        have h2 := ih _ i h
        rw [add_task_tm_eq] at h2
        exact Nat.le_of_succ_le h2
      | true =>
        rw [createdIds_cons_create_true] at h
        rcases List.mem_cons.mp h with hq | hmem
        · exact Nat.le_of_eq hq.symm
        · have h2 := ih _ i hmem
          rw [add_task_tm_eq] at h2
          exact Nat.le_of_succ_le h2
    | delete j w =>
      rw [createdIds_cons_delete] at h
      exact Nat.le_trans (next_id_le_applyOp tm (Op.delete j w)) (ih _ i h)
    | update j s w =>
      rw [createdIds_cons_update] at h
      exact Nat.le_trans (next_id_le_applyOp tm (Op.update j s w)) (ih _ i h)

/-! ### Invariant preservation -/

theorem Inv_nil (n : Nat) (p : String) :
    Inv { tasks := [], next_id := n, file_path := p } :=
  ⟨fun q hq => absurd hq (List.not_mem_nil q), List.nodup_nil,
   fun q hq => absurd hq (List.not_mem_nil q)⟩

theorem insertA_fresh (tm : TaskManager) (v : Task)
    (hlt : ∀ p ∈ tm.tasks, p.1 < tm.next_id) :
    insertA tm.tasks tm.next_id v = tm.tasks ++ [(tm.next_id, v)] := by
  have hnone : lookupA tm.tasks tm.next_id = none := lookupA_eq_none_of_lt _ _ hlt
  simp [insertA, hnone]

theorem Inv_add_task (tm : TaskManager) (t d : String) (p : TaskPriority)
    (n : String) (w : Bool) (h : Inv tm) : Inv (tm.add_task t d p n w).tm := by
  obtain ⟨hid, hnd, hlt⟩ := h
  rw [add_task_tm_eq]
  have hins := insertA_fresh tm (builtTask tm t d p n) hlt
  refine ⟨?_, ?_, ?_⟩
  · intro q hq
    simp only at hq
    rw [hins] at hq
    rcases List.mem_append.mp hq with hq | hq
    · exact hid q hq
    · simp only [List.mem_singleton] at hq
      subst hq
      rfl
  · simp only
    rw [hins, List.map_append]
    refine List.Nodup.append hnd (List.nodup_singleton _) ?_
    intro a ha hb
    simp only [List.map_cons, List.map_nil, List.mem_singleton] at hb
    subst hb
    rcases List.mem_map.mp ha with ⟨q, hq, hfst⟩
    exact absurd (hfst ▸ hlt q hq) (Nat.lt_irrefl _)
  · intro q hq
    simp only at hq
    rw [hins] at hq
    rcases List.mem_append.mp hq with hq | hq
    · exact Nat.lt_succ_of_lt (hlt q hq)
    · simp only [List.mem_singleton] at hq
      subst hq
      exact Nat.lt_succ_self _

theorem Inv_delete_task (tm : TaskManager) (i : Nat) (w : Bool) (h : Inv tm) :
    Inv (tm.delete_task i w).tm := by
  obtain ⟨hid, hnd, hlt⟩ := h
  rw [delete_task_tm_eq]
  by_cases hc : (lookupA tm.tasks i).isSome
  · rw [if_pos hc]
    refine ⟨?_, ?_, ?_⟩
    · intro q hq
      exact hid q (List.mem_of_mem_filter hq)
    · exact List.Nodup.sublist (List.Sublist.map _ (List.filter_sublist _)) hnd
    · intro q hq
      exact hlt q (List.mem_of_mem_filter hq)
  · rw [if_neg hc]
    exact ⟨hid, hnd, hlt⟩

theorem Inv_update_status (tm : TaskManager) (i : Nat) (s : TaskStatus) (w : Bool)
    (h : Inv tm) : Inv (tm.update_status i s w).tm := by
  obtain ⟨hid, hnd, hlt⟩ := h
  rw [update_status_tm_eq]
  by_cases hc : (lookupA tm.tasks i).isSome
  · rw [if_pos hc]
    refine ⟨?_, ?_, ?_⟩
    · intro q hq
      rcases mem_setStatusA _ _ _ q hq with ⟨p2, hp2, h1, h2⟩
      rw [h2, hid p2 hp2]
      exact h1.symm
    · simp only
      rw [keys_setStatusA]
      exact hnd
    · intro q hq
      rcases mem_setStatusA _ _ _ q hq with ⟨p2, hp2, h1, h2⟩
      rw [h1]
      exact hlt p2 hp2
  · rw [if_neg hc]
    exact ⟨hid, hnd, hlt⟩

theorem Inv_reload (tm tm2 : TaskManager) (p : String) (h : Inv tm)
    (hnew : TaskManager.new p (.wellFormed tm.tasks) = .ok tm2) : Inv tm2 := by
  obtain ⟨hid, hnd, hlt⟩ := h
  simp only [TaskManager.new] at hnew
  injection hnew with hnew
  subst hnew
  refine ⟨hid, hnd, ?_⟩
  intro q hq
  simp only at hq ⊢
  rcases le_maxKey tm.tasks q hq with ⟨m, hm, hle⟩
  rw [hm]
  exact Nat.lt_succ_of_le hle

/-! ### Concrete sample store used by witnesses -/

def sampleTask : Task :=
  { id := 1, title := "Buy milk", description := "2 liters",
    status := TaskStatus.Todo, created_at := "2024-01-01 00:00:00",
    priority := TaskPriority.Low }

def sampleTM : TaskManager :=
  { tasks := [(1, sampleTask)], next_id := 2, file_path := "tasks.json" }

/-! ### The claims -/

/-- C1: in every store reachable from construction by Create, Delete and
UpdateStatus calls (and reloads from files the program itself saved), every
key of the task mapping equals the `id` field of the task stored under it,
no two entries share a key, and `next_id` is strictly greater than every
key in the mapping. -/
theorem reachable_store_inv (tm : TaskManager) (h : Reachable tm) : Inv tm := by
  induction h with
  | construct p => exact Inv_nil 1 p
  | step tm2 op hr ih =>
    cases op with
    | create t d p n w => exact Inv_add_task tm2 t d p n w ih
    | delete i w => exact Inv_delete_task tm2 i w ih
    | update i s w => exact Inv_update_status tm2 i s w ih
  | reload tm2 tm3 p hr hnew ih => exact Inv_reload tm2 tm3 p ih hnew

/-- Witness for C1: the invariant holds at the concrete store obtained by
constructing on an absent file. -/
theorem reachable_store_inv_witness :
    Reachable { tasks := [], next_id := 1, file_path := "tasks.json" } ∧
      Inv { tasks := [], next_id := 1, file_path := "tasks.json" } :=
  ⟨Reachable.construct "tasks.json",
   reachable_store_inv { tasks := [], next_id := 1, file_path := "tasks.json" }
     (Reachable.construct "tasks.json")⟩

/-- C2 counterexample: the claim as stated fails once the store is persisted
and reconstructed.  Construct on an absent file, Create (returns id 1),
Delete 1 (the write then puts the empty mapping on disk), reconstruct from
that file, and the next successful Create returns id 1 again: an id once
assigned is assigned a second time after the task holding it was deleted. -/
theorem id_reuse_after_delete_and_reload :
    TaskManager.new "tasks.json" FileState.absent =
      Except.ok (TaskManager.mk [] 1 "tasks.json") ∧
    ((TaskManager.mk [] 1 "tasks.json").add_task "Buy milk" "2 liters"
        TaskPriority.Low "2024-01-01 00:00:00" true).res = Except.ok 1 ∧
    (((TaskManager.mk [] 1 "tasks.json").add_task "Buy milk" "2 liters"
        TaskPriority.Low "2024-01-01 00:00:00" true).tm.delete_task 1 true).res =
      Except.ok true ∧
    (((TaskManager.mk [] 1 "tasks.json").add_task "Buy milk" "2 liters"
        TaskPriority.Low "2024-01-01 00:00:00" true).tm.delete_task 1 true).wrote =
      some [] ∧
    TaskManager.new "tasks.json" (FileState.wellFormed []) =
      Except.ok (TaskManager.mk [] 1 "tasks.json") ∧
    ((TaskManager.mk [] 1 "tasks.json").add_task "Other task" ""
        TaskPriority.Medium "2024-01-02 00:00:00" true).res = Except.ok 1 :=
  ⟨rfl, rfl, rfl, rfl, rfl, rfl⟩

/-- C2 amended: within a single store lifetime (no reconstruction from the
file), for every sequence of Create, Delete and UpdateStatus calls the ids
returned by the successful Create calls are pairwise strictly increasing in
call order — in particular an id is never assigned twice, even after the
task holding it is deleted. -/
theorem created_ids_strictly_increasing (tm : TaskManager) (ops : List Op) :
    List.Pairwise (· < ·) (createdIds tm ops) := by
  induction ops generalizing tm with
  | nil => simp [createdIds]
  | cons op rest ih =>
    cases op with
    | create t d p n w =>
      cases w with
      | false =>
        rw [createdIds_cons_create_false]
        exact ih _
      | true =>
        rw [createdIds_cons_create_true]
        refine List.Pairwise.cons ?_ (ih _)
        intro i hmem
        have h2 := le_of_mem_createdIds rest _ i hmem
        rw [add_task_tm_eq] at h2
        exact Nat.lt_of_succ_le h2
    | delete j w =>
      rw [createdIds_cons_delete]
      exact ih _
    | update j s w =>
      rw [createdIds_cons_update]
      exact ih _

/-- C3: a successful Create returns the value `next_id` had before the
call, the mapping afterwards holds under that id a task with exactly the
given title, description and priority and with status `Todo`, and
`next_id` afterwards is the returned id plus one. -/
theorem add_task_creates_todo (tm : TaskManager) (t d : String) (p : TaskPriority)
    (n : String) :
    (tm.add_task t d p n true).res = Except.ok tm.next_id ∧
    lookupA (tm.add_task t d p n true).tm.tasks tm.next_id =
      some { id := tm.next_id, title := t, description := d,
             status := TaskStatus.Todo, created_at := n, priority := p } ∧
    (tm.add_task t d p n true).tm.next_id = tm.next_id + 1 := by
  refine ⟨add_task_res_true tm t d p n, ?_, by rw [add_task_tm_eq]⟩
  rw [add_task_tm_eq]
  exact lookupA_insertA_self tm.tasks tm.next_id (builtTask tm t d p n)

/-- C4: the priority-sorted listing is a permutation of the mapping's
values (every task appears exactly once) and every adjacent pair is
ordered by `Low ≤ Medium ≤ High`; no order among equal priorities is
claimed. -/
theorem list_sorted_by_priority_spec (tm : TaskManager) :
    tm.list_tasks_sorted_by_priority.Perm (tm.tasks.map Prod.snd) ∧
    List.Pairwise (fun a b => prioLe a.priority b.priority = true)
      tm.list_tasks_sorted_by_priority := by
  have htrans : ∀ (a b c : Task),
      prioLe a.priority b.priority → prioLe b.priority c.priority →
      prioLe a.priority c.priority = true := by
    intro a b c hab hbc
    simp only [prioLe, decide_eq_true_eq] at hab hbc ⊢
    omega
  have htotal : ∀ (a b : Task),
      (prioLe a.priority b.priority || prioLe b.priority a.priority) = true := by
    intro a b
    simp only [prioLe, Bool.or_eq_true, decide_eq_true_eq]
    omega
  constructor
  · exact List.mergeSort_perm _ _
  · exact List.sorted_mergeSort htrans htotal _

/-- C5: a successful save writes exactly the in-memory mapping, and
constructing a fresh store from that file content succeeds, yields the same
mapping, and recomputes `next_id` as the maximum key plus one (`1` when the
mapping is empty: the fold below starts at `0`). -/
theorem save_then_construct_round_trip (tm : TaskManager) (p : String) :
    tm.save_tasks true = Except.ok tm.tasks ∧
    ∃ tm2, TaskManager.new p (FileState.wellFormed tm.tasks) = Except.ok tm2 ∧
      tm2.tasks = tm.tasks ∧
      tm2.next_id = (tm.tasks.map Prod.fst).foldr Nat.max 0 + 1 := by
  refine ⟨rfl, ⟨_, rfl, rfl, ?_⟩⟩
  exact maxKey_toFold tm.tasks

/-- C6: constructing a store over a file that exists but does not parse as
the task mapping fails with the Corrupt-State error; no store (in
particular no silently empty store) is returned. -/
theorem construct_corrupt_fails (p : String) :
    TaskManager.new p FileState.corrupt = Except.error TMError.corruptState := rfl

/-- C7: Delete and UpdateStatus on an id absent from the mapping return
`false` (not an error), leave the store — mapping and `next_id` — exactly
as it was, and perform no disk write, whether or not the disk is writable. -/
theorem not_found_returns_false (tm : TaskManager) (i : Nat) (s : TaskStatus)
    (w w2 : Bool) (h : lookupA tm.tasks i = none) :
    tm.delete_task i w = { res := Except.ok false, tm := tm, wrote := none } ∧
    tm.update_status i s w2 = { res := Except.ok false, tm := tm, wrote := none } := by
  have hb : ¬ (lookupA tm.tasks i).isSome = true := by simp [h]
  constructor
  · simp [TaskManager.delete_task, hb]
  · simp [TaskManager.update_status, hb]

/-- Witness for C7: Delete and UpdateStatus of the never-created id 42 on
the concrete one-task store. -/
theorem not_found_returns_false_witness :
    lookupA sampleTM.tasks 42 = none ∧
    (sampleTM.delete_task 42 false =
      { res := Except.ok false, tm := sampleTM, wrote := none } ∧
     sampleTM.update_status 42 TaskStatus.Done false =
      { res := Except.ok false, tm := sampleTM, wrote := none }) :=
  ⟨rfl, not_found_returns_false sampleTM 42 TaskStatus.Done false false rfl⟩

/-- C8: when the disk write during Create fails, Create returns the
Persistence error, yet the newly built task remains inserted in the
in-memory mapping (no rollback), and nothing reached the disk — memory and
disk diverge. -/
theorem add_task_write_failure_keeps_insertion (tm : TaskManager) (t d : String)
    (p : TaskPriority) (n : String) :
    (tm.add_task t d p n false).res = Except.error TMError.persistence ∧
    lookupA (tm.add_task t d p n false).tm.tasks tm.next_id =
      some { id := tm.next_id, title := t, description := d,
             status := TaskStatus.Todo, created_at := n, priority := p } ∧
    (tm.add_task t d p n false).wrote = none := by
  refine ⟨add_task_res_false tm t d p n, ?_, add_task_wrote_false tm t d p n⟩
  rw [add_task_tm_eq]
  exact lookupA_insertA_self tm.tasks tm.next_id (builtTask tm t d p n)

/-- C9: UpdateStatus on a present id succeeds and changes only the status
field of that task — its id, title, description, created_at and priority
are unchanged — while every other entry of the mapping and `next_id` are
untouched. -/
theorem update_status_frame (tm : TaskManager) (i : Nat) (s : TaskStatus) (t : Task)
    (h : lookupA tm.tasks i = some t) :
    (tm.update_status i s true).res = Except.ok true ∧
    lookupA (tm.update_status i s true).tm.tasks i =
      some { id := t.id, title := t.title, description := t.description,
             status := s, created_at := t.created_at, priority := t.priority } ∧
    (∀ k, k ≠ i → lookupA (tm.update_status i s true).tm.tasks k = lookupA tm.tasks k) ∧
    (tm.update_status i s true).tm.next_id = tm.next_id := by
  have hb : (lookupA tm.tasks i).isSome = true := by simp [h]
  refine ⟨?_, ?_, ?_, ?_⟩
  · simp [TaskManager.update_status, TaskManager.save_tasks, hb]
  · rw [update_status_tm_eq, if_pos hb]
    show lookupA (setStatusA tm.tasks i s) i = _
    rw [lookupA_setStatusA_self, h]
    rfl
  · intro k hk
    rw [update_status_tm_eq, if_pos hb]
    exact lookupA_setStatusA_ne tm.tasks i k s hk
  · rw [update_status_tm_eq, if_pos hb]

/-- Witness for C9: updating the status of the concrete one-task store's
task 1 to Done. -/
theorem update_status_frame_witness :
    lookupA sampleTM.tasks 1 = some sampleTask ∧
    ((sampleTM.update_status 1 TaskStatus.Done true).res = Except.ok true ∧
     lookupA (sampleTM.update_status 1 TaskStatus.Done true).tm.tasks 1 =
       some { id := sampleTask.id, title := sampleTask.title,
              description := sampleTask.description, status := TaskStatus.Done,
              created_at := sampleTask.created_at, priority := sampleTask.priority } ∧
     (∀ k, k ≠ 1 →
        lookupA (sampleTM.update_status 1 TaskStatus.Done true).tm.tasks k =
          lookupA sampleTM.tasks k) ∧
     (sampleTM.update_status 1 TaskStatus.Done true).tm.next_id = sampleTM.next_id) :=
  ⟨rfl, update_status_frame sampleTM 1 TaskStatus.Done sampleTask rfl⟩

/-- C10: a Create whose write fails has already incremented `next_id` (the
insertion and the increment precede the save), so the next successful
Create returns an id one larger than the id the failed call consumed —
strictly greater — and each further failed Create consumes one more id. -/
theorem failed_create_consumes_id (tm : TaskManager) (t d t2 d2 : String)
    (p p2 : TaskPriority) (n n2 : String) :
    (tm.add_task t d p n false).res = Except.error TMError.persistence ∧
    (tm.add_task t d p n false).tm.next_id = tm.next_id + 1 ∧
    ((tm.add_task t d p n false).tm.add_task t2 d2 p2 n2 true).res =
      Except.ok (tm.next_id + 1) ∧
    tm.next_id < tm.next_id + 1 ∧
    ((tm.add_task t d p n false).tm.add_task t2 d2 p2 n2 false).tm.next_id =
      tm.next_id + 2 := by
  refine ⟨add_task_res_false tm t d p n, ?_, ?_, Nat.lt_succ_self _, ?_⟩
  · rw [add_task_tm_eq]
  · rw [add_task_res_true, add_task_tm_eq]
  · rw [add_task_tm_eq, add_task_tm_eq]

end CliTaskManager
